import Mathlib

/-!
# A verification development for the sift query engine

This file gives a shallow embedding, in Lean 4, of the value protocol
(`value.go`), the filter combinators (`filter.go`), the jq evaluator
primitives (package `jq`: `attrLit`, `index`, `slice`, `clampIndex`,
`iterate`, `walk`, `add`, `neg`), the driver loop (`Sift`), and the
number-literal compilation path of the parser, together with theorems
about them.

Conventions of the embedding:

* A value is modelled by the inductive type `Value`, covering the six
  categories of the canonical in-memory representations
  (`nullType`, `boolType`, `float64Type`, `stringType`, `attrType`,
  `indexType`).
* Numbers (`float64` in the source) are modelled exactly by `Num`:
  a finite value is an exact rational, and the non-finite values
  (the two infinities and NaN) are explicit constructors.  IEEE-754
  comparison semantics (`NaN` is not equal to itself, `+0 = -0`) are
  preserved by `Num.feq`; rounding of arithmetic results is not needed
  by any theorem below and is noted wherever an operation is modelled
  exactly.
* An Array (`indexType`, a `[]Value` possibly holding `nil` holes) is a
  `List (Option Value)`; `none` is a hole.
* An Object (`attrType`, a Go `map[string]Value`) is modelled by its
  canonical enumeration: an association list ordered the way
  `attrType.Keys` enumerates it (keys sorted lexicographically) and
  duplicate-free, since a Go map cannot hold a key twice.  As in the
  source, functions assume but do not require well-formedness; theorems
  that need it take it as a hypothesis (`ObjWF`).
* Fallible Go code (`(T, error)` returns) is `Except Err T`; a Go
  `panic` that no caller recovers is the distinguished error
  constructor `Err.panicked`.
-/

namespace Sift

/-- Exact model of a Go `float64`: a finite double is carried as the exact
rational it denotes; the infinities and NaN are explicit.  (The model admits
rationals that are not exactly representable as doubles; every theorem only
evaluates it on representable ones.) -/
inductive Num where
  | fin : ℚ → Num
  | inf : Bool → Num
  | nan : Num
deriving DecidableEq

/-- IEEE-754 `==` on doubles, used by `Equal` in `value.go`
(`lf.Float64() == rf.Float64()`): finite values compare as numbers
(`+0 == -0` holds because the model has a single zero), equal infinities
compare equal, and NaN is not equal to anything, itself included. -/
def Num.feq : Num → Num → Bool
  | .fin q, .fin r => q == r
  | .inf b, .inf c => b == c
  | _, _ => false

/-- One value of the six categories of §3 of the data model, mirroring the
canonical implementations at the bottom of `value.go`. -/
inductive Value where
  | vnull : Value
  | vbool : Bool → Value
  | vnum : Num → Value
  | vstr : String → Value
  | varr : List (Option Value) → Value
  | vobj : List (String × Value) → Value

/-- `sift.IsNull`: true exactly for the Null value (`nullType.IsNull`). -/
def isNull : Value → Bool
  | .vnull => true
  | _ => false

/-- `sift.AsFloat64`: the number view, defined only on Number values. -/
def asFloat64 : Value → Option Num
  | .vnum n => some n
  | _ => none

/-- `sift.AsString`: the text view, defined only on Text values. -/
def asString : Value → Option String
  | .vstr s => some s
  | _ => none

/-- `sift.AsBool`: the boolean view, defined only on Bool values. -/
def asBool : Value → Option Bool
  | .vbool b => some b
  | _ => none

/-- First binding for a key in an object's entry list (a Go map lookup
`a[name]`; on the canonical duplicate-free list the first binding is the
only one). -/
def lookupEntry (name : String) : List (String × Value) → Option Value
  | [] => none
  | (k, v) :: t => if k == name then some v else lookupEntry name t

/-- `attrType.Attr`: the key must be Text (`AsString`), then a map lookup. -/
def attrOf (l : List (String × Value)) (key : Value) : Option Value :=
  match asString key with
  | none => none
  | some name => lookupEntry name l

/-- `sift.GetAttr`: only Object values implement `Attr`. -/
def getAttr (v key : Value) : Option Value :=
  match v with
  | .vobj l => attrOf l key
  | _ => none

/-- `sift.GetStringAttr`: `GetAttr` with a text key. -/
def getStringAttr (v : Value) (name : String) : Option Value :=
  getAttr v (.vstr name)

/-- `indexType.Index`: a value is present at `i` when `0 ≤ i < len` and the
slot is not a hole (`nil` element). -/
def indexElem (l : List (Option Value)) (i : Int) : Option Value :=
  if i < 0 then none
  else match l.get? i.toNat with
    | some (some v) => some v
    | _ => none

/-- `sift.Length`: Arrays report their length (`indexType.Length`, one plus
the greatest occupied index, here the list length), Text reports its length.
(Go measures text in UTF-8 bytes; the model measures characters, which
agrees on ASCII text — no theorem below concerns multibyte text.) -/
def lengthOf : Value → Option Nat
  | .varr l => some l.length
  | .vstr s => some s.length
  | _ => none

mutual

/-- `sift.Equal` from `value.go`: the chain of category tests.  On the
canonical representations the `Attr` branch walks `Keys()` (the sorted
entry list) of both sides pairwise, compares the keys with `Equal` — which
on text values is string equality — and compares the values that `Attr`
returns for those keys, which on a duplicate-free list are the entries'
own values; this is `equalEntries`.  The `Index` branch compares lengths
and then each position's presence flag and value; this is `equalElems`. -/
def Equal : Value → Value → Bool
  | .vnull, r => isNull r
  | .vbool b, r =>
    match r with
    | .vbool c => b == c
    | _ => false
  | .vnum n, r =>
    match r with
    | .vnum m => n.feq m
    | _ => false
  | .vstr s, r =>
    match r with
    | .vstr t => s == t
    | _ => false
  | .vobj l, r =>
    match r with
    | .vobj m => equalEntries l m
    | _ => false
  | .varr l, r =>
    match r with
    | .varr m => equalElems l m
    | _ => false

/-- The `Attr` loop of `sift.Equal` on canonical entry lists: equal lengths,
pairwise equal keys, pairwise equal values. -/
def equalEntries : List (String × Value) → List (String × Value) → Bool
  | [], [] => true
  | (k₁, v₁) :: t₁, (k₂, v₂) :: t₂ => k₁ == k₂ && Equal v₁ v₂ && equalEntries t₁ t₂
  | _, _ => false

/-- The `Index` loop of `sift.Equal`: equal lengths and, at each position,
`lok != rok → false` (a hole on one side only distinguishes the arrays) and
recursively equal present values. -/
def equalElems : List (Option Value) → List (Option Value) → Bool
  | [], [] => true
  | o₁ :: t₁, o₂ :: t₂ =>
    (match o₁, o₂ with
     | none, none => true
     | some v₁, some v₂ => Equal v₁ v₂
     | _, _ => false) && equalElems t₁ t₂
  | _, _ => false

end

/-- One position of the `Index` loop of `sift.Equal`, named for the
statements below: `lok != rok → false`, two holes pass, two present values
compare recursively. -/
def elemEq : Option Value → Option Value → Bool
  | none, none => true
  | some v₁, some v₂ => Equal v₁ v₂
  | _, _ => false

/-- Unfolding of `equalElems` on two non-empty lists. -/
theorem equalElems_cons (o₁ o₂ : Option Value) (t₁ t₂ : List (Option Value)) :
    equalElems (o₁ :: t₁) (o₂ :: t₂) = (elemEq o₁ o₂ && equalElems t₁ t₂) := by
  cases o₁ <;> cases o₂ <;> rfl

/-- Category tag of a value (the six categories of §3). -/
def category : Value → Nat
  | .vnull => 0
  | .vbool _ => 1
  | .vnum _ => 2
  | .vstr _ => 3
  | .varr _ => 4
  | .vobj _ => 5

/-- An error surfaced by the evaluator.  `typeErr` carries the format
string of the `fmt.Errorf` call that produced it (the interpolated values
are omitted); `panicked` is a Go panic that no caller recovers, carrying
the panic message. -/
inductive Err where
  | typeErr : String → Err
  | panicked : String → Err
deriving DecidableEq

/-- `sift.Filter`: one value in, a finite list of values (or an error) out. -/
def Filter : Type := Value → Except Err (List Value)

/-- `sift.Literal`: always emit the one given value. -/
def Literal (v : Value) : Filter := fun _ => .ok [v]

/-- The output loop of `sift.Compose`. -/
def composeLoop (g : Filter) : List Value → Except Err (List Value)
  | [] => .ok []
  | vf :: t =>
    match g vf with
    | .error e => .error e
    | .ok vg =>
      match composeLoop g t with
      | .error e => .error e
      | .ok rest => .ok (vg ++ rest)

/-- `sift.Compose`: apply `f`, then `g` to each output, concatenating;
the first error aborts. -/
def Compose (f g : Filter) : Filter := fun v =>
  match f v with
  | .error e => .error e
  | .ok vfs => composeLoop g vfs

/-- The inner loop of `sift.Binary`: one `x`-output against every
`y`-output, in order, flattening `op`'s outputs; the first error aborts. -/
def binaryInner (op : Value → Value → Except Err (List Value)) (xv : Value) :
    List Value → Except Err (List Value)
  | [] => .ok []
  | yv :: ys =>
    match op xv yv with
    | .error e => .error e
    | .ok opvs =>
      match binaryInner op xv ys with
      | .error e => .error e
      | .ok rest => .ok (opvs ++ rest)

/-- The outer loop of `sift.Binary`. -/
def binaryOuter (op : Value → Value → Except Err (List Value)) :
    List Value → List Value → Except Err (List Value)
  | [], _ => .ok []
  | xv :: xs, ys =>
    match binaryInner op xv ys with
    | .error e => .error e
    | .ok here =>
      match binaryOuter op xs ys with
      | .error e => .error e
      | .ok rest => .ok (here ++ rest)

/-- `sift.Binary` from `filter.go`: evaluate `x`, then `y`, then apply `op`
to the Cartesian product of their outputs, outer loop over `x`'s outputs,
inner loop over `y`'s. -/
def Binary (x y : Filter) (op : Value → Value → Except Err (List Value)) : Filter := fun v =>
  match x v with
  | .error e => .error e
  | .ok xvs =>
    match y v with
    | .error e => .error e
    | .ok yvs => binaryOuter op xvs yvs

/-- Modelled from the spec: `sift.MapError` (its definition is not under
`src/`; `filter.go` documents the family and the parser composes it around
fallible single-value operators such as `neg`): it lifts a fallible
one-value transformer to a filter that emits the single transformed value
or the error. -/
def MapError (f : Value → Except Err Value) : Filter := fun v =>
  match f v with
  | .error e => .error e
  | .ok w => .ok [w]

/-- `sift.ToValue` on a `[]Value` built by the evaluator (the `case []Value`
arm of the type switch): an Array with no holes. -/
def toValueList (l : List Value) : Value := .varr (l.map some)

/-- `sift.ToValue` on a `map[string]sift.Value`: the type switch in
`value.go` has arms for `Value`, `nil`, `bool`, the numeric types,
`string`, `map[string]interface{}`, `[]interface{}` and `[]Value` — none
of which a `map[string]sift.Value` matches — so such a map falls through
to the `default` arm, which returns the error `cannot represent as value`. -/
def toValueStringMap (_ : List (String × Value)) : Except Err Value :=
  .error (.typeErr "cannot represent as value")

/-- `sift.Must`: returns the value, and turns an error into a panic.  No
caller in the evaluator recovers a panic raised during evaluation, so the
panic is modelled as the distinguished `Err.panicked` outcome. -/
def must : Except Err Value → Except Err Value
  | .ok v => .ok v
  | .error (.typeErr m) => .error (.panicked m)
  | .error (.panicked m) => .error (.panicked m)

namespace Jq

/-- `jq.attrLit`: look the literal key up with `GetStringAttr`; on a miss a
required access yields Null (`ToValue(nil)`) and an optional access yields
no values; on a hit, the attribute value.  No input makes it return an
error. -/
def attrLit (lit : String) (required : Bool) : Filter := fun v =>
  match getStringAttr v lit with
  | none => if required then .ok [.vnull] else .ok []
  | some value => .ok [value]

/-- Truncation of a rational toward zero, the rounding Go's
float64-to-int conversion uses for in-range values (`Int.tdiv` is
truncated division; the denominator of a `ℚ` is positive). -/
def ratTrunc (q : ℚ) : Int := q.num.tdiv q.den

/-- Go's `int(f)` conversion on a 64-bit target: truncation toward zero
for values that fit in `int64`; for NaN, the infinities and out-of-range
values the result is implementation-defined, and the gc/amd64 backend
(`cvttsd2si`) produces the minimum `int64`. -/
def goInt64 (n : Num) : Int :=
  match n with
  | .fin q =>
    let t := ratTrunc q
    if -(2 ^ 63) ≤ t ∧ t < 2 ^ 63 then t else -(2 ^ 63)
  | _ => -(2 ^ 63)

/-- The integer test of `jq.index`: `i := int(f)` followed by the
round-trip check `f != float64(i)`.  It passes exactly for finite
integral doubles in `int64` range, where the conversion back is exact
and yields `f` itself; NaN, the infinities, fractional values and huge
values all fail the round-trip. -/
def exactInt : Num → Option Int
  | .fin q => if q.den = 1 ∧ -(2 ^ 63) ≤ q.num ∧ q.num < 2 ^ 63 then some q.num else none
  | _ => none

/-- `jq.index` (the `.[e]` operator): over an Array the index must be a
Number (else a type error) and non-integers produce no values; a negative
integer has the length added; an out-of-bounds or hole slot yields Null.
Over an Object, an `Attr` lookup, Null on a miss.  A Null base yields
Null; any other base is a type error. -/
def indexOp (base idx : Value) : Except Err (List Value) :=
  match base with
  | .varr l =>
    match asFloat64 idx with
    | none => .error (.typeErr "cannot index array with value")
    | some f =>
      match exactInt f with
      | none => .ok []
      | some i =>
        let j := if i < 0 then i + l.length else i
        match indexElem l j with
        | none => .ok [.vnull]
        | some v => .ok [v]
  | .vobj l =>
    match attrOf l idx with
    | none => .ok [.vnull]
    | some v => .ok [v]
  | .vnull => .ok [.vnull]
  | _ => .error (.typeErr "cannot index value with value")

/-- `jq.clampIndex`: the bound must be a Number; then `i := int(f)`
(truncation first), then a negative result has the length added, then the
result is clamped into `[0, n]`. -/
def clampIndex (idx : Value) (n : Nat) : Except Err Int :=
  match asFloat64 idx with
  | none => .error (.typeErr "index must be number")
  | some f =>
    let i₀ : Int := goInt64 f
    let i₁ : Int := if i₀ < 0 then i₀ + n else i₀
    let i₂ : Int := if i₁ < 0 then 0 else i₁
    .ok (if i₂ > n then (n : Int) else i₂)

/-- The collection loop of `jq.slice` over an Array:
`for i := beginI; i < endI; i++`, keeping the elements `Index` reports
present (holes are dropped). -/
def presentRange (l : List (Option Value)) (b e : Nat) : List Value :=
  ((l.drop b).take (e - b)).filterMap id

/-- The substring `baseString[beginI:endI]` of `jq.slice`.  (Go slices the
underlying UTF-8 bytes and panics when `beginI > endI`; the model slices
the character sequence, which agrees on ASCII text — no theorem below
concerns multibyte text.) -/
def strRange (s : String) (b e : Nat) : Except Err String :=
  if e < b then .error (.panicked "slice bounds out of range")
  else .ok (String.mk ((s.data.drop b).take (e - b)))

/-- `jq.slice`: a Null input yields Null; the input must otherwise have a
length (Array or Text, else a type error); absent bounds default to `0`
and the length; present bounds go through `clampIndex`; an Array yields
the present elements of the range as a hole-free Array, Text yields the
substring.  Both bounds are clamped independently, so a reversed range
(`endI < beginI`) is reachable; there the Array branch panics in
`make([]sift.Value, 0, endI-beginI)` with a negative capacity, and the
Text branch panics in the substring expression.  `boundOr` is the
`if begin == nil` / `if end == nil` defaulting of the two bounds. -/
def boundOr (dflt : Int) (n : Nat) : Option Value → Except Err Int
  | none => .ok dflt
  | some bv => clampIndex bv n

/-- `jq.slice` itself; see the comment above. -/
def slice (base : Value) (b e : Option Value) : Except Err (List Value) :=
  if isNull base then .ok [.vnull]
  else
    match lengthOf base with
    | none => .error (.typeErr "cannot slice value")
    | some n =>
      match boundOr 0 n b with
      | .error err => .error err
      | .ok bI =>
        match boundOr n n e with
        | .error err => .error err
        | .ok eI =>
          match base with
          | .varr l =>
            if eI < bI then .error (.panicked "makeslice: cap out of range")
            else .ok [toValueList (presentRange l bI.toNat eI.toNat)]
          | .vstr s =>
            match strRange s bI.toNat eI.toNat with
            | .error err => .error err
            | .ok sub => .ok [.vstr sub]
          | _ => .error (.panicked "unexpected value")

/-- `jq.iterate` (the `.[]` operator): the input must be an Array (else a
type error); every position below the length is emitted, a hole as Null
(`Index` reports it absent and the loop substitutes `ToValue(nil)`). -/
def iterate (v : Value) : Except Err (List Value) :=
  match v with
  | .varr l => .ok (l.map (fun o => o.getD .vnull))
  | _ => .error (.typeErr "cannot iterate over value")

/-- `jq.iterateOpt` (the `.[]?` operator): no values for a non-Array,
otherwise `iterate`. -/
def iterateOpt (v : Value) : Except Err (List Value) :=
  match v with
  | .varr _ => iterate v
  | _ => .ok []

/-- Insertion into the Go map being built by `jq.add`'s object branch:
overwrite the binding if the key is present, append it otherwise. -/
def insertEntry (k : String) (v : Value) : List (String × Value) → List (String × Value)
  | [] => [(k, v)]
  | (k', v') :: t => if k' == k then (k', v) :: t else (k', v') :: insertEntry k v t

/-- The map `jq.add` builds for two Objects: first every binding of the
right operand, then every binding of the left operand on top (so the left
operand wins on a shared key). -/
def mergeEntriesGo (xa ya : List (String × Value)) : List (String × Value) :=
  xa.foldl (fun acc kv => insertEntry kv.1 kv.2 acc)
    (ya.foldl (fun acc kv => insertEntry kv.1 kv.2 acc) [])

/-- `float64` addition.  The finite case is modelled exactly (real IEEE
addition rounds the exact sum to the nearest double; no theorem below
depends on the numeric result of `+`); the non-finite cases follow IEEE:
opposite infinities and any NaN operand give NaN. -/
def fadd : Num → Num → Num
  | .nan, _ => .nan
  | _, .nan => .nan
  | .inf b, .inf c => if b == c then .inf b else .nan
  | .inf b, .fin _ => .inf b
  | .fin _, .inf c => .inf c
  | .fin q, .fin r => .fin (q + r)

/-- `jq.add` (the `+` operator): Number + Number, Text + Text,
Array + Array (concatenating the present elements of both sides), and
Object + Object, which builds a `map[string]sift.Value` (left operand
winning) and hands it to `sift.ToValue` — whose type switch has no arm
for that map type, so `Must` panics with `cannot represent as value`.
(The object branch's `AsString`/`Attr` checks on the operands' own keys
cannot fail on the canonical representation, whose keys are Text.)
Any other combination is a type error. -/
def add (x y : Value) : Except Err Value :=
  match asFloat64 x with
  | some xn =>
    match asFloat64 y with
    | none => .error (.typeErr "cannot use numeric operator on value")
    | some yn => .ok (.vnum (fadd xn yn))
  | none =>
    match asString x with
    | some xs =>
      match asString y with
      | none => .error (.typeErr "cannot concatenate string with value")
      | some ys => .ok (.vstr (xs ++ ys))
    | none =>
      match x with
      | .varr xl =>
        match y with
        | .varr yl => .ok (toValueList (xl.filterMap id ++ yl.filterMap id))
        | _ => .error (.typeErr "cannot concatenate array with value")
      | .vobj xa =>
        match y with
        | .vobj ya => must (toValueStringMap (mergeEntriesGo xa ya))
        | _ => .error (.typeErr "cannot concatenate object with value")
      | _ => .error (.typeErr "cannot use numeric operator on values")

/-- `float64` negation (exact for every value; negation never rounds). -/
def fneg : Num → Num
  | .fin q => .fin (-q)
  | .inf b => .inf (!b)
  | .nan => .nan

/-- `jq.neg` (unary `-`): the input must be a Number. -/
def negOp (v : Value) : Except Err Value :=
  match asFloat64 v with
  | none => .error (.typeErr "cannot negate value")
  | some n => .ok (.vnum (fneg n))

mutual

/-- `jq.walk` (the `..` operator): `visit` first appends the node itself,
then recurses into the children. -/
def walk (v : Value) : List Value := v :: walkKids v

/-- The recursion of `visit`: an `Attr` value contributes the values of its
keys in `Keys()` order (on the canonical representation, the entry list in
order); an `Index` value contributes its present elements in index order,
skipping holes; other values contribute nothing.  (The source tests `Attr`
and `Index` with two separate `if`s; no canonical value is both.) -/
def walkKids : Value → List Value
  | .vobj l => walkEntries l
  | .varr l => walkElems l
  | _ => []

/-- `visit` over the entries of an Object, in canonical key order. -/
def walkEntries : List (String × Value) → List Value
  | [] => []
  | (_, v) :: t => walk v ++ walkEntries t

/-- `visit` over the elements of an Array, in index order, skipping the
slots `Index` reports absent. -/
def walkElems : List (Option Value) → List Value
  | [] => []
  | none :: t => walkElems t
  | some v :: t => walk v ++ walkElems t

end

/-- `jq.walk` as a `sift.Filter`: the error result is always `nil`. -/
def walkFilter : Filter := fun v => .ok (walk v)

end Jq

mutual

/-- The number of nodes of a value tree: the value itself plus,
recursively, the nodes of the Object attribute values and of the present
Array elements (a hole contributes nothing). -/
def nodeCount (v : Value) : Nat := 1 + kidsCount v

/-- Node count of a value's children. -/
def kidsCount : Value → Nat
  | .vobj l => entriesCount l
  | .varr l => elemsCount l
  | _ => 0

/-- Node count of an Object's entries. -/
def entriesCount : List (String × Value) → Nat
  | [] => 0
  | (_, v) :: t => nodeCount v + entriesCount t

/-- Node count of an Array's elements, skipping holes. -/
def elemsCount : List (Option Value) → Nat
  | [] => 0
  | none :: t => elemsCount t
  | some v :: t => nodeCount v + elemsCount t

end

/-- The integer value of the largest finite IEEE-754 double,
`math.MaxFloat64 = 1.7976931348623157e+308`, i.e. `(2^53 - 1) · 2^971`,
written out so that it evaluates without large exponentiations
(`maxDoubleNat_eq` below proves it equal to the formula). -/
def maxDoubleNat : ℕ := 179769313486231570814527423731704356798070567525844996598917476803157260780028538760589558632766878171540458953514382464234321326889464182768467546703537516986049910576551282076245490090389328944075868508455133942304583236903222948165808559332123348274797826204144723168738177180919299881250404026184124858368

/-- The magnitude at which rounding a real to the nearest double reaches
infinity: the midpoint `2^1024 - 2^970` above the largest finite double
(an exact tie there rounds to the even candidate `2^1024`, overflowing);
written out like `maxDoubleNat` (`ovfThresholdNat_eq` below). -/
def ovfThresholdNat : ℕ := 179769313486231580793728971405303415079934132710037826936173778980444968292764750946649017977587207096330286416692887910946555547851940402630657488671505820681908902000708383676273854845817711531764475730270069855571366959622842914819860834936475292719074168444365510704342711559699508093042880177904174497792

/-- The numeral defining `maxDoubleNat` is `(2^53 - 1) · 2^971`. -/
theorem maxDoubleNat_eq : maxDoubleNat = (2 ^ 53 - 1) * 2 ^ 971 := by
  norm_num [maxDoubleNat]

/-- The numeral defining `ovfThresholdNat` is `2^1024 - 2^970`. -/
theorem ovfThresholdNat_eq : ovfThresholdNat = 2 ^ 1024 - 2 ^ 970 := by
  norm_num [ovfThresholdNat]

/-- `math.MaxFloat64` as an exact rational. -/
def maxDouble : ℚ := (maxDoubleNat : ℚ)

/-- The overflow midpoint as an exact rational. -/
def ovfThreshold : ℚ := (ovfThresholdNat : ℚ)

/-- Accumulate a run of decimal digits: value so far, digit count, rest. -/
def takeDigits : Nat → Nat → List Char → Nat × Nat × List Char
  | acc, cnt, [] => (acc, cnt, [])
  | acc, cnt, c :: cs =>
    if c.isDigit then takeDigits (acc * 10 + (c.toNat - 48)) (cnt + 1) cs
    else (acc, cnt, c :: cs)

/-- The exact rational `m / 10^f · 10^e`, assembled from integer
arithmetic (so that it evaluates by kernel reduction). -/
def decValue (m f : ℕ) (e : Int) : ℚ :=
  if 0 ≤ e then mkRat ((m * 10 ^ e.toNat : ℕ) : Int) (10 ^ f)
  else mkRat (m : Int) (10 ^ f * 10 ^ (-e).toNat)

/-- The exact rational value of a `number` token, per the shape
`jq.scanNumber` produces: an optional integer part, an optional `.` and
fraction, at least one digit in one of the two, and an optional `e`/`E`
exponent with optional sign and at least one digit.  The scanner never
puts a sign in front of the literal (`-1` is unary minus applied to `1`),
and this function rejects a leading sign accordingly.  `none` for any
string that is not a number token. -/
def numLitVal (lit : String) : Option ℚ :=
  let (ip, ic, r₁) := takeDigits 0 0 lit.data
  let (fp, fc, r₂) :=
    match r₁ with
    | '.' :: t => takeDigits 0 0 t
    | _ => (0, 0, r₁)
  if ic + fc = 0 then none
  else
    let m : ℕ := ip * 10 ^ fc + fp
    match r₂ with
    | [] => some (decValue m fc 0)
    | 'e' :: t => numLitExp m fc t
    | 'E' :: t => numLitExp m fc t
    | _ => none
  where
    /-- The exponent suffix: optional sign, then at least one digit,
    consuming the whole rest. -/
    numLitExp (m f : ℕ) (t : List Char) : Option ℚ :=
      let (sgn, t') :=
        match t with
        | '+' :: u => ((1 : Int), u)
        | '-' :: u => ((-1 : Int), u)
        | _ => ((1 : Int), t)
      let (ev, ec, r) := takeDigits 0 0 t'
      if ec = 0 then none
      else match r with
        | [] => some (decValue m f (sgn * ev))
        | _ => none

/-- Modelled from the spec: Go `strconv.ParseFloat` (standard library, not
under `src/`).  It rounds the exact decimal value to the nearest double
and reports `ErrRange` exactly when that rounding overflows to an
infinity, i.e. when the magnitude is at least `ovfThreshold`; a magnitude
strictly between `maxDouble` and the threshold rounds down to `maxDouble`
with no error.  Rounding strictly inside the finite range is irrelevant to
every theorem in this file, and the model leaves such values exact. -/
def parseFloatGo (q : ℚ) : Except Unit ℚ :=
  if ovfThreshold ≤ q ∨ q ≤ -ovfThreshold then .error ()
  else if maxDouble < q then .ok maxDouble
  else if q < -maxDouble then .ok (-maxDouble)
  else .ok q

/-- The `number` branch of `jq.parsePrimary`: `strconv.ParseFloat` on the
token literal; on `ErrRange` the value is clamped to `±math.MaxFloat64`,
negative when the literal's first byte is `'-'` (which a scanner-produced
literal never is); any other parse failure is a compile error (`none`). -/
def parseNumberLit (lit : String) : Option Value :=
  match numLitVal lit with
  | none => none
  | some q =>
    match parseFloatGo q with
    | .ok n => some (.vnum (.fin n))
    | .error _ =>
      if lit.data.head? = some '-' then some (.vnum (.fin (-maxDouble)))
      else some (.vnum (.fin maxDouble))

/-- The `minus` branch of `jq.parsePrimary`: unary minus compiles to
`Compose(f, MapError(neg))` around the operand's compiled filter. -/
def compileUnaryMinus (f : Filter) : Filter := Compose f (MapError Jq.negOp)

/-- The bound-normalization rule in the order the specification words it
(§4.4 Slicing: "if bound is negative, add length; then clamp into
`[0, length]`; convert via truncation"), stated for a finite numeric
bound; to be compared against `Jq.clampIndex`, which truncates first. -/
def specClampIndex (q : ℚ) (n : ℕ) : Int :=
  Jq.ratTrunc (min (max (if q < 0 then q + n else q) 0) n)

/-- A Decoder is modelled by the finite sequence of results its successive
`Decode` calls return; the end of the list is `io.EOF`. -/
def DecStream : Type := List (Except Err Value)

/-- An Encoder is modelled by the (deterministic) result of `Encode` on
each value; the driver stops at the first encode error. -/
def Enc : Type := Value → Except Err Unit

/-- The inner emission loop of `sift.Sift`: encode each output in order,
returning the successfully encoded prefix and the first encode error. -/
def emitLoop (enc : Enc) : List Value → List Value × Option Err
  | [] => ([], none)
  | v :: t =>
    match enc v with
    | .error e => ([], some e)
    | .ok _ =>
      match emitLoop enc t with
      | (tr, r) => (v :: tr, r)

/-- `sift.Sift` from `filter.go`, observed as the ordered trace of values
handed to the encoder together with the final result (`none` is the `nil`
return at `io.EOF`): decode, filter, emit every output, repeat; a decode
error, a filter error or an encode error stops the loop immediately. -/
def runSift (f : Filter) (enc : Enc) : DecStream → List Value × Option Err
  | [] => ([], none)
  | .error e :: _ => ([], some e)
  | .ok vin :: rest =>
    match f vin with
    | .error e => ([], some e)
    | .ok vouts =>
      match emitLoop enc vouts with
      | (tr, some e) => (tr, some e)
      | (tr, none) =>
        match runSift f enc rest with
        | (tr', r) => (tr ++ tr', r)

/-! ## Theorems -/

mutual

/-- No NaN number appears anywhere in the value.  (Division by zero and
float modulo produce NaN at run time, and `Equal` compares numbers with
IEEE `==`, which fails on NaN.) -/
def nanFree : Value → Bool
  | .vnum .nan => false
  | .vobj l => nanFreeEntries l
  | .varr l => nanFreeElems l
  | _ => true

/-- `nanFree` over an Object's entries. -/
def nanFreeEntries : List (String × Value) → Bool
  | [] => true
  | (_, v) :: t => nanFree v && nanFreeEntries t

/-- `nanFree` over an Array's elements. -/
def nanFreeElems : List (Option Value) → Bool
  | [] => true
  | none :: t => nanFreeElems t
  | some v :: t => nanFree v && nanFreeElems t

end

/-- IEEE `==` is reflexive away from NaN. -/
theorem Num.feq_refl (n : Num) (h : n ≠ .nan) : n.feq n = true := by
  cases n <;> simp_all [Num.feq]

/-- IEEE `==` is symmetric. -/
theorem Num.feq_symm {a b : Num} (h : a.feq b = true) : b.feq a = true := by
  cases a <;> cases b <;> simp_all [Num.feq]

/-- IEEE `==` is transitive. -/
theorem Num.feq_trans {a b c : Num} (h₁ : a.feq b = true) (h₂ : b.feq c = true) :
    a.feq c = true := by
  cases a <;> cases b <;> cases c <;> simp_all [Num.feq]

mutual

/-- `Equal` is reflexive on every NaN-free value. -/
theorem equal_refl (v : Value) (h : nanFree v = true) : Equal v v = true := by
  cases v with
  | vnull => rfl
  | vbool b => simp [Equal]
  | vnum n =>
    cases n with
    | fin q => simp [Equal, Num.feq]
    | inf b => simp [Equal, Num.feq]
    | nan => simp [nanFree] at h
  | vstr s => simp [Equal]
  | vobj l =>
    rw [show nanFree (.vobj l) = nanFreeEntries l from rfl] at h
    simp [Equal, equalEntries_refl l h]
  | varr l =>
    rw [show nanFree (.varr l) = nanFreeElems l from rfl] at h
    simp [Equal, equalElems_refl l h]

/-- Reflexivity of the object-entry comparison. -/
theorem equalEntries_refl (l : List (String × Value)) (h : nanFreeEntries l = true) :
    equalEntries l l = true := by
  match l with
  | [] => rfl
  | (k, v) :: t =>
    rw [show nanFreeEntries ((k, v) :: t) = (nanFree v && nanFreeEntries t) from rfl] at h
    rw [Bool.and_eq_true] at h
    simp [equalEntries, equal_refl v h.1, equalEntries_refl t h.2]

/-- Reflexivity of the array-element comparison. -/
theorem equalElems_refl (l : List (Option Value)) (h : nanFreeElems l = true) :
    equalElems l l = true := by
  match l with
  | [] => rfl
  | none :: t =>
    rw [show nanFreeElems (none :: t) = nanFreeElems t from rfl] at h
    simp [equalElems, equalElems_refl t h]
  | some v :: t =>
    rw [show nanFreeElems (some v :: t) = (nanFree v && nanFreeElems t) from rfl] at h
    rw [Bool.and_eq_true] at h
    simp [equalElems, equal_refl v h.1, equalElems_refl t h.2]

end

mutual

/-- `Equal` is symmetric. -/
theorem equal_symm (x y : Value) (h : Equal x y = true) : Equal y x = true := by
  cases x <;> cases y <;> simp_all [Equal, isNull]
  · exact Num.feq_symm h
  · exact equalElems_symm _ _ h
  · exact equalEntries_symm _ _ h
termination_by sizeOf x

/-- Symmetry of the object-entry comparison. -/
theorem equalEntries_symm (l m : List (String × Value))
    (h : equalEntries l m = true) : equalEntries m l = true := by
  match l, m with
  | [], [] => rfl
  | [], (k, v) :: t => simp [equalEntries] at h
  | (k, v) :: t, [] => simp [equalEntries] at h
  | (k₁, v₁) :: t₁, (k₂, v₂) :: t₂ =>
    simp only [equalEntries, Bool.and_eq_true, beq_iff_eq] at h ⊢
    exact ⟨⟨h.1.1.symm, equal_symm _ _ h.1.2⟩, equalEntries_symm _ _ h.2⟩
termination_by sizeOf l

/-- Symmetry of the array-element comparison. -/
theorem equalElems_symm (l m : List (Option Value))
    (h : equalElems l m = true) : equalElems m l = true := by
  match l, m with
  | [], [] => rfl
  | [], o :: t => simp [equalElems] at h
  | o :: t, [] => simp [equalElems] at h
  | o₁ :: t₁, o₂ :: t₂ =>
    rw [equalElems_cons, Bool.and_eq_true] at h
    rw [equalElems_cons, Bool.and_eq_true]
    refine ⟨?_, equalElems_symm _ _ h.2⟩
    cases o₁ <;> cases o₂ <;> simp_all [elemEq]
    exact equal_symm _ _ h.1
termination_by sizeOf l

end

mutual

/-- `Equal` is transitive. -/
theorem equal_trans (x y z : Value) (h₁ : Equal x y = true)
    (h₂ : Equal y z = true) : Equal x z = true := by
  cases x <;> cases y <;> cases z <;> simp_all [Equal, isNull]
  · exact Num.feq_trans h₁ h₂
  · exact equalElems_trans _ _ _ h₁ h₂
  · exact equalEntries_trans _ _ _ h₁ h₂
termination_by sizeOf x

/-- Transitivity of the object-entry comparison. -/
theorem equalEntries_trans (l m n : List (String × Value))
    (h₁ : equalEntries l m = true) (h₂ : equalEntries m n = true) :
    equalEntries l n = true := by
  match l, m, n with
  | [], [], [] => rfl
  | [], [], _ :: _ => simp [equalEntries] at h₂
  | [], _ :: _, _ => simp [equalEntries] at h₁
  | _ :: _, [], _ => simp [equalEntries] at h₁
  | _ :: _, _ :: _, [] => simp [equalEntries] at h₂
  | (k₁, v₁) :: t₁, (k₂, v₂) :: t₂, (k₃, v₃) :: t₃ =>
    simp only [equalEntries, Bool.and_eq_true, beq_iff_eq] at h₁ h₂ ⊢
    exact ⟨⟨h₁.1.1.trans h₂.1.1, equal_trans _ _ _ h₁.1.2 h₂.1.2⟩,
      equalEntries_trans _ _ _ h₁.2 h₂.2⟩
termination_by sizeOf l

/-- Transitivity of the array-element comparison. -/
theorem equalElems_trans (l m n : List (Option Value))
    (h₁ : equalElems l m = true) (h₂ : equalElems m n = true) :
    equalElems l n = true := by
  match l, m, n with
  | [], [], [] => rfl
  | [], [], _ :: _ => simp [equalElems] at h₂
  | [], _ :: _, _ => simp [equalElems] at h₁
  | _ :: _, [], _ => simp [equalElems] at h₁
  | _ :: _, _ :: _, [] => simp [equalElems] at h₂
  | o₁ :: t₁, o₂ :: t₂, o₃ :: t₃ =>
    rw [equalElems_cons, Bool.and_eq_true] at h₁ h₂
    rw [equalElems_cons, Bool.and_eq_true]
    refine ⟨?_, equalElems_trans _ _ _ h₁.2 h₂.2⟩
    cases o₁ <;> cases o₂ <;> cases o₃ <;> simp_all [elemEq]
    exact equal_trans _ _ _ h₁.1 h₂.1
termination_by sizeOf l

end

/-- Equal values belong to the same category. -/
theorem equal_category (x y : Value) (h : Equal x y = true) :
    category x = category y := by
  cases x <;> cases y <;> simp_all [Equal, isNull, category]

/-- Equal Objects have equal key lists, in canonical iteration order, with
pairwise `Equal` values. -/
theorem equal_object_contents (l m : List (String × Value))
    (h : Equal (.vobj l) (.vobj m) = true) :
    l.map Prod.fst = m.map Prod.fst ∧
      List.Forall₂ (fun a b => Equal a.2 b.2 = true) l m := by
  rw [show Equal (.vobj l) (.vobj m) = equalEntries l m from rfl] at h
  induction l generalizing m with
  | nil =>
    cases m with
    | nil => exact ⟨rfl, List.Forall₂.nil⟩
    | cons b t => simp [equalEntries] at h
  | cons a t ih =>
    cases m with
    | nil => cases a; simp [equalEntries] at h
    | cons b u =>
      cases a with | mk k₁ v₁ => cases b with | mk k₂ v₂ =>
      simp only [equalEntries, Bool.and_eq_true, beq_iff_eq] at h
      obtain ⟨⟨hk, hv⟩, ht⟩ := h
      obtain ⟨hm, hf⟩ := ih u ht
      exact ⟨by simp [hk, hm], List.Forall₂.cons hv hf⟩

/-- C3 (counterexample): the claim says `Equal` is reflexive on every
value of each category, but on the Number NaN — producible at run time by
`0/0` — `Equal` follows IEEE `==` and returns false. -/
theorem claim3_counterexample :
    Equal (.vnum .nan) (.vnum .nan) = false := rfl

/-- C3 (amended): the evaluator's equality is reflexive on every value
containing no NaN number, and symmetric and transitive on all values; two
values are equal only if they belong to the same category, and two equal
Objects have equal key lists in canonical iteration order with
pairwise-equal values. -/
theorem claim3_equal_equivalence :
    (∀ v, nanFree v = true → Equal v v = true) ∧
    (∀ x y, Equal x y = true → Equal y x = true) ∧
    (∀ x y z, Equal x y = true → Equal y z = true → Equal x z = true) ∧
    (∀ x y, Equal x y = true → category x = category y) ∧
    (∀ l m, Equal (.vobj l) (.vobj m) = true →
      l.map Prod.fst = m.map Prod.fst ∧
        List.Forall₂ (fun a b => Equal a.2 b.2 = true) l m) :=
  ⟨equal_refl, equal_symm, equal_trans, equal_category, equal_object_contents⟩

/-- C3 (witness): the amended theorem evaluated at concrete values — a
NaN-free Object is equal to itself, a pair of equal arrays is symmetric,
and equal values share a category. -/
theorem claim3_equal_equivalence_witness :
    Equal (.vobj [("a", .varr [none, some (.vnum (.fin 1))])])
      (.vobj [("a", .varr [none, some (.vnum (.fin 1))])]) = true ∧
    Equal (.vstr "b") (.vstr "b") = true ∧
    category (.vstr "b") = category (.vstr "b") :=
  ⟨claim3_equal_equivalence.1 (.vobj [("a", .varr [none, some (.vnum (.fin 1))])]) rfl,
   claim3_equal_equivalence.2.1 (.vstr "b") (.vstr "b") rfl,
   claim3_equal_equivalence.2.2.2.1 (.vstr "b") (.vstr "b") rfl⟩

/-- C1 (counterexample): the claim says a field access `.k` on a
non-Object, non-Null input is a type error unless marked optional; but on
the Number input `12` the required access `.x` evaluates to Null and not
to an error (matching the repository's own `field_not_object` test). -/
theorem claim1_counterexample :
    Jq.attrLit "x" true (.vnum (.fin 12)) = .ok [.vnull] ∧
      ∀ e : Err, Except.ok ([Value.vnull]) ≠ (Except.error e : Except Err (List Value)) := by
  exact ⟨rfl, fun e h => by cases h⟩

/-- C1 (amended): field access `.k` returns the attribute value when the
lookup succeeds; whenever `GetStringAttr` fails — key absent, Null input,
or any non-Object input such as a Number — a required access returns Null
and an optional access emits no values.  Field access never returns an
error. -/
theorem claim1_field_access :
    (∀ l lit u, lookupEntry lit l = some u →
      ∀ required, Jq.attrLit lit required (.vobj l) = .ok [u]) ∧
    (∀ v lit, getStringAttr v lit = none →
      Jq.attrLit lit true v = .ok [.vnull] ∧ Jq.attrLit lit false v = .ok []) ∧
    (∀ lit required, Jq.attrLit lit required .vnull =
      .ok (if required then [.vnull] else [])) ∧
    (∀ n lit required, Jq.attrLit lit required (.vnum n) =
      .ok (if required then [.vnull] else [])) := by
  refine ⟨fun l lit u h required => ?_, fun v lit h => ?_, fun lit required => ?_,
    fun n lit required => ?_⟩
  · simp [Jq.attrLit, getStringAttr, getAttr, attrOf, asString, h]
  · refine ⟨?_, ?_⟩ <;> simp [Jq.attrLit, h]
  · cases required <;> simp [Jq.attrLit, getStringAttr, getAttr]
  · cases required <;> simp [Jq.attrLit, getStringAttr, getAttr]

/-- C1 (witness): the amended theorem evaluated at a present key. -/
theorem claim1_field_access_witness :
    Jq.attrLit "a" true (.vobj [("a", .vbool true)]) = .ok [.vbool true] :=
  claim1_field_access.1 [("a", .vbool true)] "a" (.vbool true) rfl true

/-- C2 (counterexample): the claim says iteration `.[]` treats a hole as
absent; but iterating over the one-hole array emits the single value Null
(the loop substitutes `ToValue(nil)` for a missing slot) instead of
emitting nothing. -/
theorem claim2_counterexample :
    Jq.iterate (.varr [none]) = .ok [.vnull] ∧
      ([Value.vnull] : List Value) ≠ [] := by
  exact ⟨rfl, by simp⟩

/-- A hole in one array facing a present value at the same position in the
other makes the element loop of `Equal` fail, wherever the position is. -/
theorem equalElems_hole_mismatch (l₁ : List (Option Value)) :
    ∀ (l₂ : List (Option Value)) (i : ℕ) (v : Value), l₁.get? i = some none →
      l₂.get? i = some (some v) → equalElems l₁ l₂ = false := by
  induction l₁ with
  | nil => intro l₂ i v h₁ h₂; simp at h₁
  | cons o t ih =>
    intro l₂ i v h₁ h₂
    cases l₂ with
    | nil => simp at h₂
    | cons o₂ t₂ =>
      rw [equalElems_cons]
      cases i with
      | zero =>
        simp only [List.get?] at h₁ h₂
        obtain rfl := Option.some.inj h₁
        obtain rfl := Option.some.inj h₂
        simp [elemEq]
      | succ n =>
        simp only [List.get?] at h₁ h₂
        simp [ih t₂ n v h₁ h₂]

/-- C2 (amended): every successful slice of an Array — whichever of the
forms `.[b:e]`, `.[b:]`, `.[:e]` produced it — returns a hole-free array
holding exactly the present elements of the normalized range; equality
distinguishes an array with a hole at any position from one with a value
there (in either order); iteration `.[]`, however, emits Null for each
hole rather than treating it as absent. -/
theorem claim2_holes :
    (∀ l, Jq.iterate (.varr l) = .ok (l.map fun o => o.getD .vnull)) ∧
    (∀ l b e out, Jq.slice (.varr l) b e = .ok out →
      ∃ bN eN, out = [toValueList (Jq.presentRange l bN eN)]) ∧
    (∀ l₁ l₂ i v, l₁.get? i = some none → l₂.get? i = some (some v) →
      Equal (.varr l₁) (.varr l₂) = false) ∧
    (∀ l₁ l₂ i v, l₁.get? i = some none → l₂.get? i = some (some v) →
      Equal (.varr l₂) (.varr l₁) = false) := by
  have hmis : ∀ (l₁ l₂ : List (Option Value)) i v, l₁.get? i = some none →
      l₂.get? i = some (some v) → Equal (.varr l₁) (.varr l₂) = false := by
    intro l₁ l₂ i v h₁ h₂
    rw [show Equal (.varr l₁) (.varr l₂) = equalElems l₁ l₂ from rfl]
    exact equalElems_hole_mismatch l₁ l₂ i v h₁ h₂
  refine ⟨fun l => rfl, fun l b e out h => ?_, hmis, fun l₁ l₂ i v h₁ h₂ => ?_⟩
  · rw [Jq.slice] at h
    simp only [isNull, Bool.false_eq_true, if_false, lengthOf] at h
    cases hB : Jq.boundOr 0 l.length b with
    | error err => simp only [hB, reduceCtorEq] at h
    | ok bI =>
      cases hE : Jq.boundOr l.length l.length e with
      | error err => simp only [hB, hE, reduceCtorEq] at h
      | ok eI =>
        simp only [hB, hE] at h
        split at h
        · cases h
        · exact ⟨_, _, (Except.ok.inj h).symm⟩
  · cases hb : Equal (.varr l₂) (.varr l₁) with
    | false => rfl
    | true =>
      have hsym := equal_symm _ _ hb
      rw [hmis l₁ l₂ i v h₁ h₂] at hsym
      cases hsym

/-- C2 (witness): the amended theorem evaluated concretely — a two-sided
slice over an array with a hole drops the hole, and arrays differing by a
hole at position 1 are unequal in both orders. -/
theorem claim2_holes_witness :
    (∃ bN eN, ([toValueList [Value.vbool true]] : List Value) =
      [toValueList (Jq.presentRange [none, some (.vbool true), none] bN eN)]) ∧
    Equal (.varr [some .vnull, none]) (.varr [some .vnull, some .vnull]) = false ∧
    Equal (.varr [some .vnull, some .vnull]) (.varr [some .vnull, none]) = false :=
  ⟨claim2_holes.2.1 [none, some (.vbool true), none]
      (some (.vnum (.fin 0))) (some (.vnum (.fin 3))) [toValueList [Value.vbool true]] rfl,
   claim2_holes.2.2.1 [some .vnull, none] [some .vnull, some .vnull] 1 .vnull rfl rfl,
   claim2_holes.2.2.2 [some .vnull, none] [some .vnull, some .vnull] 1 .vnull rfl rfl⟩

/-- C4 (code bug): `x + y` on two Objects builds a `map[string]sift.Value`
and hands it to `sift.ToValue`, whose type switch has no arm for that map
type; the `default` arm produces the error `cannot represent as value` and
`sift.Must` turns it into a panic.  Every Object + Object addition
therefore panics instead of producing the left-biased union the
specification describes (the repository's own `object_construct` tests
expect the same `ToValue`-on-a-value-map pattern to succeed, so the
missing arm contradicts them). -/
theorem claim4_object_add_panics :
    ∀ xa ya, Jq.add (.vobj xa) (.vobj ya) =
      .error (.panicked "cannot represent as value") := by
  intro xa ya
  rfl

/-- C9: indexing an Object with a key whose attribute lookup fails —
in particular any non-Text key such as a Number — yields Null and not an
error, while indexing an Array with a non-Number key is a type error. -/
theorem claim9_object_index_null :
    (∀ l n, Jq.indexOp (.vobj l) (.vnum n) = .ok [.vnull]) ∧
    (∀ l k, attrOf l k = none → Jq.indexOp (.vobj l) k = .ok [.vnull]) ∧
    (∀ a s, Jq.indexOp (.varr a) (.vstr s) =
      .error (.typeErr "cannot index array with value")) := by
  refine ⟨fun l n => ?_, fun l k h => ?_, fun a s => ?_⟩
  · simp [Jq.indexOp, attrOf, asString]
  · simp [Jq.indexOp, h]
  · simp [Jq.indexOp, asFloat64]

/-- C9 (witness): the theorem evaluated at a Number key over an Object and
at a Text key over an Array. -/
theorem claim9_object_index_null_witness :
    Jq.indexOp (.vobj [("a", .vbool true)]) (.vnum (.fin 1)) = .ok [.vnull] ∧
    Jq.indexOp (.varr [some .vnull]) (.vstr "a") =
      .error (.typeErr "cannot index array with value") :=
  ⟨claim9_object_index_null.1 [("a", .vbool true)] (.fin 1),
   claim9_object_index_null.2.2 [some .vnull] "a"⟩

/-- The object entries of `..`'s traversal concatenate the walks of the
attribute values in key order. -/
theorem walkEntries_eq (l : List (String × Value)) :
    Jq.walkEntries l = (l.map Prod.snd).flatMap Jq.walk := by
  induction l with
  | nil => simp [Jq.walkEntries]
  | cons kv t ih => cases kv with | mk k v => simp [Jq.walkEntries, ih]

/-- The array elements of `..`'s traversal concatenate the walks of the
present elements in index order, skipping holes. -/
theorem walkElems_eq (l : List (Option Value)) :
    Jq.walkElems l = (l.filterMap id).flatMap Jq.walk := by
  induction l with
  | nil => simp [Jq.walkElems]
  | cons o t ih => cases o <;> simp [Jq.walkElems, ih]

mutual

/-- The traversal of `..` emits exactly one value per node of the tree. -/
theorem walk_length (v : Value) : (Jq.walk v).length = nodeCount v := by
  rw [Jq.walk, nodeCount]
  cases v with
  | vobj l => simp [Jq.walkKids, kidsCount, walkEntries_length l, Nat.add_comm]
  | varr l => simp [Jq.walkKids, kidsCount, walkElems_length l, Nat.add_comm]
  | vnull => simp [Jq.walkKids, kidsCount]
  | vbool b => simp [Jq.walkKids, kidsCount]
  | vnum n => simp [Jq.walkKids, kidsCount]
  | vstr s => simp [Jq.walkKids, kidsCount]

/-- Node count of the object part of the traversal. -/
theorem walkEntries_length (l : List (String × Value)) :
    (Jq.walkEntries l).length = entriesCount l := by
  match l with
  | [] => simp [Jq.walkEntries, entriesCount]
  | (k, v) :: t =>
    rw [Jq.walkEntries, entriesCount]
    simp [walk_length v, walkEntries_length t]

/-- Node count of the array part of the traversal. -/
theorem walkElems_length (l : List (Option Value)) :
    (Jq.walkElems l).length = elemsCount l := by
  match l with
  | [] => simp [Jq.walkElems, elemsCount]
  | none :: t => rw [Jq.walkElems, elemsCount]; exact walkElems_length t
  | some v :: t =>
    rw [Jq.walkElems, elemsCount]
    simp [walk_length v, walkElems_length t]

end

/-- C10: the recursive-descent filter `..` is total and error-free: on
every value it returns an `ok` finite list that begins with the input
itself and continues with the traversal of an Object's attribute values in
canonical key order and of an Array's elements in index order, holes
skipped; the list's length is exactly the node count of the value tree. -/
theorem claim10_walk :
    (∀ v, Jq.walkFilter v = .ok (Jq.walk v)) ∧
    (∀ v, (Jq.walk v).head? = some v) ∧
    (∀ l, Jq.walk (.vobj l) = .vobj l :: (l.map Prod.snd).flatMap Jq.walk) ∧
    (∀ l, Jq.walk (.varr l) = .varr l :: (l.filterMap id).flatMap Jq.walk) ∧
    (∀ v, (Jq.walk v).length = nodeCount v) := by
  refine ⟨fun v => rfl, fun v => ?_, fun l => ?_, fun l => ?_, walk_length⟩
  · rw [Jq.walk]; rfl
  · rw [Jq.walk, Jq.walkKids, walkEntries_eq]
  · rw [Jq.walk, Jq.walkKids, walkElems_eq]

/-- The list a successful `Except` carries (empty for an error); used to
state the output of `Binary` when no operand errors. -/
def okList : Except Err (List Value) → List Value
  | .ok l => l
  | .error _ => []

/-- The inner loop of `Binary`, when `op` succeeds on every pair, flattens
`op`'s outputs over the `y`-outputs in order. -/
theorem binaryInner_ok (op : Value → Value → Except Err (List Value)) (x : Value)
    (ys : List Value) (h : ∀ b ∈ ys, (op x b).isOk = true) :
    binaryInner op x ys = .ok (ys.flatMap fun b => okList (op x b)) := by
  induction ys with
  | nil => rfl
  | cons y t ih =>
    have hy := h y (List.mem_cons_self y t)
    cases hop : op x y with
    | error e => rw [hop] at hy; simp [Except.isOk, Except.toBool] at hy
    | ok rs =>
      rw [binaryInner, hop, ih fun b hb => h b (List.mem_cons_of_mem y hb)]
      simp [okList, hop]

/-- The outer loop of `Binary`, when `op` succeeds on every pair, flattens
the inner loops over the `x`-outputs in order. -/
theorem binaryOuter_ok (op : Value → Value → Except Err (List Value))
    (xs ys : List Value) (h : ∀ a ∈ xs, ∀ b ∈ ys, (op a b).isOk = true) :
    binaryOuter op xs ys =
      .ok (xs.flatMap fun a => ys.flatMap fun b => okList (op a b)) := by
  induction xs with
  | nil => rfl
  | cons x t ih =>
    rw [binaryOuter, binaryInner_ok op x ys (h x (List.mem_cons_self x t)),
      ih fun a ha => h a (List.mem_cons_of_mem x ha)]
    rfl

/-- C7: `Binary(f, g, op)` evaluates the Cartesian product with `f`'s
outputs as the outer loop and `g`'s outputs as the inner loop: when
nothing errors, the result is the in-order flattening of `op` over all
pairs and its length is the sum over all pairs of `op`'s output lengths;
an error from `f`, from `g`, or from the first failing `op` application
aborts the whole application with that error. -/
theorem claim7_binary_product :
    (∀ x y op (v : Value) e, x v = .error e → Binary x y op v = .error e) ∧
    (∀ x y op (v : Value) xs e, x v = .ok xs → y v = .error e →
      Binary x y op v = .error e) ∧
    (∀ x y op (v : Value) xs ys, x v = .ok xs → y v = .ok ys →
      (∀ a ∈ xs, ∀ b ∈ ys, (op a b).isOk = true) →
      Binary x y op v = .ok (xs.flatMap fun a => ys.flatMap fun b => okList (op a b)) ∧
      (okList (Binary x y op v)).length =
        (xs.map fun a => ((ys.map fun b => (okList (op a b)).length).sum)).sum) ∧
    (∀ x y op (v : Value) a xs b ys e, x v = .ok (a :: xs) → y v = .ok (b :: ys) →
      op a b = .error e → Binary x y op v = .error e) := by
  refine ⟨fun x y op v e hx => ?_, fun x y op v xs e hx hy => ?_,
    fun x y op v xs ys hx hy hop => ?_, fun x y op v a xs b ys e hx hy hop => ?_⟩
  · simp [Binary, hx]
  · simp [Binary, hx, hy]
  · have hmain : Binary x y op v =
        .ok (xs.flatMap fun a => ys.flatMap fun b => okList (op a b)) := by
      simp [Binary, hx, hy, binaryOuter_ok op xs ys hop]
    refine ⟨hmain, ?_⟩
    rw [hmain]
    simp [okList, List.length_flatMap, Function.comp_def]
  · simp [Binary, hx, hy, binaryOuter, binaryInner, hop]

/-- C7 (witness): the theorem evaluated concretely — two outputs against
two outputs under an `op` emitting one pair-value each. -/
theorem claim7_binary_product_witness :
    Binary (fun _ => .ok [.vbool true, .vbool false]) (fun _ => .ok [.vnull])
      (fun a b => .ok [a, b]) .vnull =
      .ok [.vbool true, .vnull, .vbool false, .vnull] := by
  have h := (claim7_binary_product.2.2.1
    (fun _ => .ok [.vbool true, .vbool false]) (fun _ => .ok [.vnull])
    (fun a b => .ok [a, b]) .vnull [.vbool true, .vbool false] [.vnull]
    rfl rfl (fun a _ b _ => rfl)).1
  simpa using h

/-- When every output encodes successfully, the emission loop of the
driver encodes exactly the outputs, in order. -/
theorem emitLoop_ok (enc : Enc) (outs : List Value)
    (h : ∀ o ∈ outs, enc o = .ok ()) : emitLoop enc outs = (outs, none) := by
  induction outs with
  | nil => rfl
  | cons o t ih =>
    rw [emitLoop, h o (List.mem_cons_self o t),
      ih fun o' ho' => h o' (List.mem_cons_of_mem o ho')]

/-- C8: the driver loop: end-of-stream returns success; a decode error is
returned as-is; for a successful decode whose outputs all encode, every
output of input `n` is emitted before anything of the remaining stream
(the trace is the outputs followed by the rest's trace); and a filter
error is returned immediately, with nothing further read or emitted. -/
theorem claim8_driver :
    (∀ f enc, runSift f enc [] = ([], none)) ∧
    (∀ f enc e rest, runSift f enc (.error e :: rest) = ([], some e)) ∧
    (∀ f enc v rest outs, f v = .ok outs → (∀ o ∈ outs, enc o = .ok ()) →
      runSift f enc (.ok v :: rest) =
        (outs ++ (runSift f enc rest).1, (runSift f enc rest).2)) ∧
    (∀ f enc v rest e, f v = .error e →
      runSift f enc (.ok v :: rest) = ([], some e)) := by
  refine ⟨fun f enc => rfl, fun f enc e rest => rfl,
    fun f enc v rest outs hf henc => ?_, fun f enc v rest e hf => ?_⟩
  · rw [runSift, hf]
    simp [emitLoop_ok enc outs henc]
  · rw [runSift, hf]

/-- C5 (counterexample): the claim normalizes a slice bound by adding the
length to a negative bound, clamping, and truncating last; the code
truncates first.  For the bound `-0.5` over a length-2 array the code
truncates to `0` (so `.[-0.5:]` keeps the whole array), while the claim's
order gives `⌊-0.5 + 2⌋ = 1` (which would drop the first element). -/
theorem claim5_counterexample :
    Jq.clampIndex (.vnum (.fin (mkRat (-1) 2))) 2 = .ok 0 ∧
    specClampIndex (mkRat (-1) 2) 2 = 1 ∧
    Jq.slice (.varr [some (.vstr "a"), some (.vstr "b")])
      (some (.vnum (.fin (mkRat (-1) 2)))) none =
      .ok [.varr [some (.vstr "a"), some (.vstr "b")]] ∧
    (0 : Int) ≠ 1 := by
  refine ⟨rfl, ?_, rfl, by decide⟩
  have hlt : (mkRat (-1) 2 : ℚ) < 0 := by
    rw [Rat.mkRat_eq_divInt, Rat.divInt_eq_div]
    norm_num
  have harg : min (max (if (mkRat (-1) 2 : ℚ) < 0 then mkRat (-1) 2 + ((2 : ℕ) : ℚ)
      else mkRat (-1) 2) 0) ((2 : ℕ) : ℚ) = mkRat 3 2 := by
    rw [if_pos hlt, Rat.mkRat_eq_divInt, Rat.divInt_eq_div, Rat.mkRat_eq_divInt,
      Rat.divInt_eq_div]
    norm_num
  rw [specClampIndex, harg]
  rfl

/-- C5 (amended): a Null input yields Null; every present bound must be a
Number, else the type error `index must be number`; a finite numeric bound
is normalized by first truncating toward zero, then adding the length if
the truncated value is negative, then clamping into `[0, length]`; when
the normalized begin does not exceed the normalized end, an Array input
yields a new hole-free array of the elements present in that range; when
it does exceed it (both bounds are clamped independently, so reversed
ranges are reachable), the Go runtime panics in
`make([]sift.Value, 0, endI-beginI)` with a negative capacity. -/
theorem claim5_slice :
    (∀ b e, Jq.slice .vnull b e = .ok [.vnull]) ∧
    (∀ l v e, asFloat64 v = none →
      Jq.slice (.varr l) (some v) e = .error (.typeErr "index must be number")) ∧
    (∀ l (q : Num) v, asFloat64 v = none →
      Jq.slice (.varr l) (some (.vnum q)) (some v) =
        .error (.typeErr "index must be number")) ∧
    (∀ (q : ℚ) n, -(2 ^ 63) ≤ Jq.ratTrunc q → Jq.ratTrunc q < 2 ^ 63 →
      Jq.clampIndex (.vnum (.fin q)) n =
        .ok (min (max (if Jq.ratTrunc q < 0 then Jq.ratTrunc q + n
          else Jq.ratTrunc q) 0) n)) ∧
    (∀ l (qb qe : Num) bI eI,
      Jq.clampIndex (.vnum qb) l.length = .ok bI →
      Jq.clampIndex (.vnum qe) l.length = .ok eI →
      bI ≤ eI →
      Jq.slice (.varr l) (some (.vnum qb)) (some (.vnum qe)) =
        .ok [toValueList (((l.drop bI.toNat).take (eI.toNat - bI.toNat)).filterMap id)]) ∧
    (∀ l (qb qe : Num) bI eI,
      Jq.clampIndex (.vnum qb) l.length = .ok bI →
      Jq.clampIndex (.vnum qe) l.length = .ok eI →
      eI < bI →
      Jq.slice (.varr l) (some (.vnum qb)) (some (.vnum qe)) =
        .error (.panicked "makeslice: cap out of range")) := by
  have hclampErr : ∀ v n, asFloat64 v = none →
      Jq.clampIndex v n = .error (.typeErr "index must be number") := by
    intro v n hv
    rw [Jq.clampIndex, hv]
  have hclampNum : ∀ (q : Num) n, ∃ i, Jq.clampIndex (.vnum q) n = .ok i := by
    intro q n
    rw [Jq.clampIndex]
    exact ⟨_, rfl⟩
  refine ⟨fun b e => rfl, fun l v e h => ?_, fun l q v h => ?_,
    fun q n h₁ h₂ => ?_, fun l qb qe bI eI hb he hle => ?_,
    fun l qb qe bI eI hb he hlt => ?_⟩
  · simp [Jq.slice, Jq.boundOr, isNull, lengthOf, hclampErr v l.length h]
  · obtain ⟨bI, hbI⟩ := hclampNum q l.length
    simp [Jq.slice, Jq.boundOr, isNull, lengthOf, hbI, hclampErr v l.length h]
  · rw [Jq.clampIndex]
    simp only [asFloat64, Jq.goInt64, if_pos (And.intro h₁ h₂)]
    congr 1
    split_ifs <;> omega
  · rw [Jq.slice]
    simp only [isNull, Bool.false_eq_true, if_false, lengthOf, Jq.boundOr, hb, he,
      Jq.presentRange, if_neg (not_lt.mpr hle)]
  · rw [Jq.slice]
    simp only [isNull, Bool.false_eq_true, if_false, lengthOf, Jq.boundOr, hb, he,
      if_pos hlt]

/-- C5 (witness): the amended theorem evaluated at the bounds `1.9` and
`2.1` over a four-element array — both truncate (`1` and `2`) and select
the single element at index `1`, matching the repository's
`array_slice_float` test — and at the reversed bounds `3` and `1`, where
the runtime panics. -/
theorem claim5_slice_witness :
    Jq.clampIndex (.vnum (.fin (mkRat 19 10))) 4 = .ok 1 ∧
    Jq.slice (.varr [some (.vstr "a"), some (.vstr "b"), some (.vstr "c"), some (.vstr "d")])
      (some (.vnum (.fin (mkRat 19 10)))) (some (.vnum (.fin (mkRat 21 10)))) =
      .ok [.varr [some (.vstr "b")]] ∧
    Jq.slice (.varr [some (.vstr "a"), some (.vstr "b"), some (.vstr "c"), some (.vstr "d")])
      (some (.vnum (.fin 3))) (some (.vnum (.fin 1))) =
      .error (.panicked "makeslice: cap out of range") := by
  refine ⟨?_, ?_, ?_⟩
  · have h := claim5_slice.2.2.2.1 (mkRat 19 10) 4 (by decide) (by decide)
    rw [h]
    rfl
  · have h := claim5_slice.2.2.2.2.1
      [some (.vstr "a"), some (.vstr "b"), some (.vstr "c"), some (.vstr "d")]
      (.fin (mkRat 19 10)) (.fin (mkRat 21 10)) 1 2 rfl rfl (by decide)
    rw [h]
    rfl
  · exact claim5_slice.2.2.2.2.2
      [some (.vstr "a"), some (.vstr "b"), some (.vstr "c"), some (.vstr "d")]
      (.fin 3) (.fin 1) 3 1 rfl rfl (by decide)

/-- The largest finite double is positive. -/
theorem maxDouble_pos : 0 < maxDouble := by
  rw [maxDouble]
  exact_mod_cast Nat.pos_of_ne_zero (by norm_num [maxDoubleNat])

/-- The overflow midpoint is positive. -/
theorem ovfThreshold_pos : 0 < ovfThreshold := by
  rw [ovfThreshold]
  exact_mod_cast Nat.pos_of_ne_zero (by norm_num [ovfThresholdNat])

/-- A string the number-literal evaluator accepts never starts with a
sign: the scanner's number tokens are unsigned (`-1` scans as unary minus
applied to `1`). -/
theorem numLitVal_head (lit : String) (q : ℚ) (h : numLitVal lit = some q) :
    lit.data.head? ≠ some '-' := by
  intro hhead
  cases hd : lit.data with
  | nil => rw [hd] at hhead; cases hhead
  | cons c cs =>
    rw [hd] at hhead
    have hc : c = '-' := by
      have := hhead
      simp at this
      exact this
    subst hc
    rw [numLitVal, hd] at h
    have ht : takeDigits 0 0 ('-' :: cs) = (0, 0, '-' :: cs) := by
      rw [takeDigits]
      simp
    rw [ht] at h
    simp at h

/-- Every value the number-literal evaluator produces is some exact
decimal value `m / 10^f · 10^e`. -/
theorem numLitVal_shape (lit : String) (q : ℚ) (h : numLitVal lit = some q) :
    ∃ m f e, q = decValue m f e := by
  rw [numLitVal] at h
  repeat' split at h
  all_goals try simp only [numLitVal.numLitExp] at h
  repeat' split at h
  all_goals simp at h
  all_goals exact ⟨_, _, _, h.symm⟩

/-- The exact decimal value of a literal is non-negative. -/
theorem decValue_nonneg (m f : ℕ) (e : Int) : 0 ≤ decValue m f e := by
  rw [decValue]
  split <;>
    exact Rat.mkRat_eq_divInt _ _ ▸
      Rat.divInt_nonneg (Int.ofNat_nonneg _) (Int.ofNat_nonneg _)

/-- C6: a number literal whose magnitude exceeds the largest finite double
compiles to the literal clamped to `MAX_FLOAT64`, never an infinity
(literal values are non-negative, so the magnitude is the value; on a
range error the sign byte cannot be `'-'`); in particular the program
`-1e10000` — unary minus around the literal `1e10000` — emits
`-1.7976931348623157e+308` on every input. -/
theorem claim6_literal_clamp :
    (∀ lit q, numLitVal lit = some q → 0 ≤ q) ∧
    (∀ lit q, numLitVal lit = some q → maxDouble < q →
      parseNumberLit lit = some (.vnum (.fin maxDouble))) ∧
    parseNumberLit "1e10000" = some (.vnum (.fin maxDouble)) ∧
    (∀ v, compileUnaryMinus (Literal (.vnum (.fin maxDouble))) v =
      .ok [.vnum (.fin (-maxDouble))]) := by
  have hnonneg : ∀ lit q, numLitVal lit = some q → 0 ≤ q := by
    intro lit q h
    obtain ⟨m, f, e, rfl⟩ := numLitVal_shape lit q h
    exact decValue_nonneg m f e
  have hclamp : ∀ lit q, numLitVal lit = some q → maxDouble < q →
      parseNumberLit lit = some (.vnum (.fin maxDouble)) := by
    intro lit q h hgt
    rw [parseNumberLit, h]
    by_cases hovf : ovfThreshold ≤ q
    · simp only [parseFloatGo]
      rw [if_pos (Or.inl hovf)]
      have hhead := numLitVal_head lit q h
      simp only [if_neg hhead]
    · have hneg : ¬ q ≤ -ovfThreshold := by
        have h0 : (0 : ℚ) < q := lt_trans maxDouble_pos hgt
        have h1 : (-ovfThreshold : ℚ) < 0 := neg_neg_iff_pos.mpr ovfThreshold_pos
        exact not_le.mpr (lt_trans h1 h0)
      simp only [parseFloatGo]
      rw [if_neg (by push_neg; exact ⟨lt_of_not_le hovf, lt_of_not_le hneg⟩), if_pos hgt]
  have h1e4 : numLitVal "1e10000" = some (decValue 1 0 (1 * 10000)) := rfl
  have hgt4 : maxDouble < decValue 1 0 (1 * 10000) := by
    have hval : decValue 1 0 (1 * 10000) =
        (((1 * 10 ^ ((1 * 10000 : Int)).toNat : ℕ) : ℤ) : ℚ) := by
      rw [decValue, if_pos (by norm_num), pow_zero, Rat.mkRat_one]
    have htn : ((1 * 10000 : Int)).toNat = (10000 : ℕ) := rfl
    rw [hval, htn, maxDouble]
    have h1 : (2 : ℕ) ^ 53 - 1 < 2 ^ 53 := by norm_num
    have h2 : (0 : ℕ) < 2 ^ 971 := Nat.pos_pow_of_pos 971 (by norm_num)
    have h3 : ((2 : ℕ) ^ 53 - 1) * 2 ^ 971 < 2 ^ 53 * 2 ^ 971 :=
      (Nat.mul_lt_mul_right h2).mpr h1
    have h4 : (2 : ℕ) ^ 53 * 2 ^ 971 = 2 ^ 1024 := by rw [← pow_add]
    have h56 : (2 : ℕ) ^ 1024 ≤ 10 ^ 10000 :=
      le_trans (Nat.pow_le_pow_left (by norm_num) 1024)
        (Nat.pow_le_pow_right (by norm_num) (by norm_num))
    have hnat : maxDoubleNat < 1 * 10 ^ (10000 : ℕ) := by
      rw [maxDoubleNat_eq, one_mul]
      exact lt_of_lt_of_le (lt_of_lt_of_le h3 (le_of_eq h4)) h56
    exact_mod_cast hnat
  refine ⟨hnonneg, hclamp, hclamp "1e10000" _ h1e4 hgt4, fun v => rfl⟩

set_option maxRecDepth 4000 in
/-- C6 (witness): the clamping conjunct applied to a concrete over-range
literal, `18` followed by 308 zeros (about `1.8e309`, beyond the largest
finite double): it compiles to `MAX_FLOAT64`. -/
theorem claim6_literal_clamp_witness :
    parseNumberLit "1800000000000000000000000000000000000000000000000000000000000000000000000000000000000000000000000000000000000000000000000000000000000000000000000000000000000000000000000000000000000000000000000000000000000000000000000000000000000000000000000000000000000000000000000000000000000000000000000000000000000000000000" = some (.vnum (.fin maxDouble)) :=
  claim6_literal_clamp.2.1 "1800000000000000000000000000000000000000000000000000000000000000000000000000000000000000000000000000000000000000000000000000000000000000000000000000000000000000000000000000000000000000000000000000000000000000000000000000000000000000000000000000000000000000000000000000000000000000000000000000000000000000000000" (decValue 1800000000000000000000000000000000000000000000000000000000000000000000000000000000000000000000000000000000000000000000000000000000000000000000000000000000000000000000000000000000000000000000000000000000000000000000000000000000000000000000000000000000000000000000000000000000000000000000000000000000000000000000 0 0) rfl (by decide)

/-- C8 (witness): the theorem evaluated on a two-input stream whose filter
duplicates its input, with an always-succeeding encoder. -/
theorem claim8_driver_witness :
    runSift (fun v => .ok [v, v]) (fun _ => .ok ()) [.ok .vnull, .ok (.vbool true)] =
      ([.vnull, .vnull, .vbool true, .vbool true], none) := by
  have h₁ := claim8_driver.2.2.1 (fun v => .ok [v, v]) (fun _ => .ok ())
    Value.vnull [Except.ok (.vbool true)] [.vnull, .vnull] rfl (fun o _ => rfl)
  have h₂ := claim8_driver.2.2.1 (fun v => .ok [v, v]) (fun _ => .ok ())
    (Value.vbool true) [] [.vbool true, .vbool true] rfl (fun o _ => rfl)
  rw [h₁, h₂]
  rfl

end Sift
